import Mathlib

/-!
Shallow embedding of the ramph orchestration core (src/types.rs, src/prompts.rs,
src/amp.rs, src/workflows.rs) and proofs about the frozen specification claims.

Conventions:
* Rust `String` is modelled as Lean `String`; where byte-level positions matter
  (the extractor in prompts.rs) the text is modelled as `List Char`.  The two
  brace characters searched for are ASCII (one byte), so the byte index of the
  first brace exceeds the byte index of the last close brace plus one exactly
  when the corresponding character indices do; the character-level model is
  therefore observationally equivalent for slicing and for the panic condition.
* Rust `i32` priorities are modelled as `Int` (no arithmetic is performed on
  them, only comparisons, so wrap-around never arises).
* Fallible Rust functions returning `anyhow::Result` are modelled with
  `Except String`; the extractor additionally needs a `panic` outcome because
  string slicing can panic.
-/

/-- Task entity (`Story` in src/types.rs lines 17-28). -/
structure Story where
  id : String
  title : String
  description : String
  priority : Int
  passes : Bool
  acceptance_criteria : List String
deriving Repr, DecidableEq

/-- Task Document (`Prd` in src/types.rs lines 10-15). -/
structure Prd where
  branch_name : String
  stories : List Story
deriving Repr, DecidableEq

/-- Rust `Iterator::min_by_key` on a nonempty list, keyed by `priority`:
the running minimum is replaced only when a strictly smaller key appears,
so among equal minima the first is kept (Rust `min_by` semantics). -/
def minByPriority (x : Story) (xs : List Story) : Story :=
  xs.foldl (fun acc y => if y.priority < acc.priority then y else acc) x

/-- `Prd::get_next_story` (src/types.rs lines 31-36):
filter out passed stories, take the minimum-priority one. -/
def Prd.get_next_story (prd : Prd) : Option Story :=
  match prd.stories.filter (fun s => !s.passes) with
  | [] => none
  | x :: xs => some (minByPriority x xs)

/-- `validate_prd`, per-story loop (src/types.rs lines 58-86).
`idx` is the enumeration index, `seen` the set of already-inserted ids
(the `HashSet` is modelled as a list; `insert` returning `false` is the
membership test).  The checks run in source order. -/
def validateStories : List Story → Nat → List String → Except String Unit
  | [], _, _ => .ok ()
  | story :: rest, idx, seen =>
    if story.id = "" then
      .error ("Story at index " ++ toString idx ++ " has empty ID")
    else if story.title = "" then
      .error ("Story " ++ story.id ++ " has empty title")
    else if story.description = "" then
      .error ("Story " ++ story.id ++ " has empty description")
    else if story.priority ≤ 0 then
      .error ("Story " ++ story.id ++ " has invalid priority: " ++ toString story.priority)
    else if story.acceptance_criteria = [] then
      .error ("Story " ++ story.id ++ " has no acceptance criteria")
    else if story.id ∈ seen then
      .error ("Duplicate story ID: " ++ story.id)
    else
      validateStories rest (idx + 1) (story.id :: seen)

/-- `validate_prd` (src/types.rs lines 49-89). -/
def validate_prd (prd : Prd) : Except String Unit :=
  if prd.branch_name = "" then .error "Branch name cannot be empty"
  else if prd.stories = [] then .error "PRD must contain at least one story"
  else validateStories prd.stories 0 []

/-- The per-story field conditions `validate_prd` enforces. -/
def okFields (s : Story) : Prop :=
  s.id ≠ "" ∧ s.title ≠ "" ∧ s.description ≠ "" ∧ 0 < s.priority ∧
    s.acceptance_criteria ≠ []

instance (s : Story) : Decidable (okFields s) := by
  unfold okFields; infer_instance

/-! ### Scheduler lemmas (C1) -/

lemma minByPriority_decomp (xs : List Story) : ∀ (x : Story),
    ∃ pre post, x :: xs = pre ++ minByPriority x xs :: post ∧
      (∀ t ∈ pre, (minByPriority x xs).priority < t.priority) ∧
      (∀ t ∈ post, (minByPriority x xs).priority ≤ t.priority) := by
  induction xs with
  | nil =>
    intro x
    exact ⟨[], [], rfl, by simp, by simp⟩
  | cons y ys ih =>
    intro x
    have hfold : minByPriority x (y :: ys) =
        minByPriority (if y.priority < x.priority then y else x) ys := by
      simp [minByPriority, List.foldl_cons]
    set x' := if y.priority < x.priority then y else x with hx'
    obtain ⟨pre, post, hEq, hpre, hpost⟩ := ih x'
    set m := minByPriority x' ys with hm
    -- the final minimum is bounded by the seed priority
    have hm_le_x' : m.priority ≤ x'.priority := by
      rcases pre with _ | ⟨p0, pre'⟩
      · simp only [List.nil_append, List.cons.injEq] at hEq
        exact le_of_eq (by rw [hEq.1])
      · simp only [List.cons_append, List.cons.injEq] at hEq
        rw [hEq.1]
        exact le_of_lt (hpre p0 (List.mem_cons_self _ _))
    by_cases hy : y.priority < x.priority
    · -- x' = y; the new head x is strictly above the minimum
      have hx'y : x' = y := by rw [hx']; simp [hy]
      refine ⟨x :: pre, post, ?_, ?_, hpost⟩
      · rw [hx'y] at hEq
        rw [hfold, List.cons_append, ← hEq]
      · intro t ht
        rcases List.mem_cons.mp ht with h | h
        · subst h
          calc m.priority ≤ x'.priority := hm_le_x'
            _ = y.priority := by rw [hx'y]
            _ < t.priority := hy
        · exact hpre t h
    · -- x' = x; y joins the tail
      have hx'x : x' = x := by rw [hx']; simp [hy]
      have hxy : x.priority ≤ y.priority := le_of_not_lt hy
      rcases pre with _ | ⟨p0, pre'⟩
      · -- minimum is the head itself: y goes to the post side
        simp only [List.nil_append, List.cons.injEq] at hEq
        refine ⟨[], y :: post, ?_, by simp, ?_⟩
        · rw [hfold, List.nil_append, ← hEq.1, hx'x, hEq.2]
        · intro t ht
          rcases List.mem_cons.mp ht with h | h
          · subst h
            calc m.priority ≤ x'.priority := hm_le_x'
              _ = x.priority := by rw [hx'x]
              _ ≤ t.priority := hxy
          · exact hpost t h
      · -- minimum lies in the tail: x and y both precede it
        simp only [List.cons_append, List.cons.injEq] at hEq
        have hx0 : p0 = x := by rw [← hEq.1, hx'x]
        have hm_lt_x : m.priority < x.priority := by
          have := hpre p0 (List.mem_cons_self _ _)
          rwa [hx0] at this
        refine ⟨x :: y :: pre', post, ?_, ?_, hpost⟩
        · rw [hfold, List.cons_append, List.cons_append, hEq.2]
        · intro t ht
          rcases List.mem_cons.mp ht with h | h
          · subst h; exact hm_lt_x
          rcases List.mem_cons.mp h with h' | h'
          · subst h'; exact lt_of_lt_of_le hm_lt_x hxy
          · exact hpre t (List.mem_cons_of_mem _ h')

lemma filter_decomp (p : Story → Bool) : ∀ (l l₁ l₂ : List Story) (m : Story),
    l.filter p = l₁ ++ m :: l₂ →
    ∃ L₁ L₂, l = L₁ ++ m :: L₂ ∧ L₁.filter p = l₁ ∧ L₂.filter p = l₂ := by
  intro l
  induction l with
  | nil =>
    intro l₁ l₂ m h
    simp only [List.filter_nil] at h
    exact absurd h.symm (List.append_ne_nil_of_right_ne_nil _ (by simp))
  | cons a l ih =>
    intro l₁ l₂ m h
    by_cases hpa : p a
    · rw [List.filter_cons_of_pos hpa] at h
      rcases l₁ with _ | ⟨b, l₁'⟩
      · simp only [List.nil_append, List.cons.injEq] at h
        exact ⟨[], l, by simp [h.1], by simp, h.2⟩
      · simp only [List.cons_append, List.cons.injEq] at h
        obtain ⟨L₁, L₂, hl, hf1, hf2⟩ := ih l₁' l₂ m h.2
        refine ⟨a :: L₁, L₂, by rw [hl, List.cons_append], ?_, hf2⟩
        rw [List.filter_cons_of_pos hpa, hf1, h.1]
    · rw [List.filter_cons_of_neg hpa] at h
      obtain ⟨L₁, L₂, hl, hf1, hf2⟩ := ih l₁ l₂ m h
      exact ⟨a :: L₁, L₂, by rw [hl, List.cons_append],
        by rw [List.filter_cons_of_neg hpa, hf1], hf2⟩

/-- C1: For every Task Document `D`, `get_next_story` returns `none` iff every
task has `passes == true`; otherwise the returned task is not done, no other
not-done task has a strictly smaller priority, and every task occurring
earlier in document order is either done or of strictly larger priority
(first-occurrence tie-break among equal minimum priorities). -/
theorem c1_scheduler_first_min (D : Prd) :
    (D.get_next_story = none ↔ ∀ s ∈ D.stories, s.passes = true) ∧
    (∀ s, D.get_next_story = some s →
      s.passes = false ∧
      ∃ pre post, D.stories = pre ++ s :: post ∧
        (∀ t ∈ pre, t.passes = true ∨ s.priority < t.priority) ∧
        (∀ t ∈ post, t.passes = true ∨ s.priority ≤ t.priority)) := by
  constructor
  · constructor
    · intro h s hs
      unfold Prd.get_next_story at h
      rcases hfe : D.stories.filter (fun s => !s.passes) with _ | ⟨x, xs⟩
      · have := List.filter_eq_nil_iff.mp hfe s hs
        simpa using this
      · rw [hfe] at h; exact absurd h (by simp)
    · intro h
      unfold Prd.get_next_story
      have : D.stories.filter (fun s => !s.passes) = [] :=
        List.filter_eq_nil_iff.mpr (fun a ha => by simp [h a ha])
      rw [this]
  · intro s hs
    unfold Prd.get_next_story at hs
    rcases hfe : D.stories.filter (fun s => !s.passes) with _ | ⟨x, xs⟩
    · rw [hfe] at hs; exact absurd hs (by simp)
    · rw [hfe] at hs
      have hmin : minByPriority x xs = s := by
        simpa using hs
      obtain ⟨pre, post, hEq, hpre, hpost⟩ := minByPriority_decomp xs x
      rw [hmin] at hEq hpre hpost
      have hsmem : s ∈ D.stories.filter (fun s => !s.passes) := by
        rw [hfe, hEq]
        exact List.mem_append_right pre (List.mem_cons_self _ _)
      have hpass : s.passes = false := by
        have := List.of_mem_filter hsmem
        simpa using this
      obtain ⟨L₁, L₂, hl, hf1, hf2⟩ :=
        filter_decomp (fun s => !s.passes) D.stories pre post s (by rw [hfe, hEq])
      refine ⟨hpass, L₁, L₂, hl, ?_, ?_⟩
      · intro t ht
        by_cases hp : t.passes
        · exact Or.inl hp
        · refine Or.inr (hpre t ?_)
          rw [← hf1]
          exact List.mem_filter.mpr ⟨ht, by simp [hp]⟩
      · intro t ht
        by_cases hp : t.passes
        · exact Or.inl hp
        · refine Or.inr (hpost t ?_)
          rw [← hf2]
          exact List.mem_filter.mpr ⟨ht, by simp [hp]⟩

/-- Concrete document for the C1 witness: the unique minimum-priority pending
story is `B`, which occurs before the equal-priority pending story `C`. -/
def c1sA : Story := ⟨"A", "ta", "da", 1, true, ["c"]⟩
def c1sB : Story := ⟨"B", "tb", "db", 2, false, ["c"]⟩
def c1sC : Story := ⟨"C", "tc", "dc", 2, false, ["c"]⟩
def c1prd : Prd := ⟨"feature/x", [c1sA, c1sB, c1sC]⟩

/-- Witness for C1 at a concrete document: the scheduler picks story `B`. -/
theorem c1_scheduler_first_min_witness :
    c1sB.passes = false ∧
    ∃ pre post, c1prd.stories = pre ++ c1sB :: post ∧
      (∀ t ∈ pre, t.passes = true ∨ c1sB.priority < t.priority) ∧
      (∀ t ∈ post, t.passes = true ∨ c1sB.priority ≤ t.priority) :=
  (c1_scheduler_first_min c1prd).2 c1sB (by rfl)

/-! ### Validation lemmas (C4) -/

lemma validateStories_ok_iff : ∀ (l : List Story) (idx : Nat) (seen : List String),
    validateStories l idx seen = .ok () ↔
      ((∀ s ∈ l, okFields s) ∧ (l.map Story.id).Nodup ∧ ∀ s ∈ l, s.id ∉ seen) := by
  intro l
  induction l with
  | nil => intro idx seen; simp [validateStories]
  | cons a l ih =>
    intro idx seen
    simp only [validateStories]
    split_ifs with h1 h2 h3 h4 h5 h6
    · constructor
      · intro h; exact absurd h (by simp)
      · intro ⟨hf, _, _⟩; exact (hf a (List.mem_cons_self _ _)).1 h1
    · constructor
      · intro h; exact absurd h (by simp)
      · intro ⟨hf, _, _⟩; exact absurd h2 (hf a (List.mem_cons_self _ _)).2.1
    · constructor
      · intro h; exact absurd h (by simp)
      · intro ⟨hf, _, _⟩; exact absurd h3 (hf a (List.mem_cons_self _ _)).2.2.1
    · constructor
      · intro h; exact absurd h (by simp)
      · intro ⟨hf, _, _⟩
        exact absurd (hf a (List.mem_cons_self _ _)).2.2.2.1 (not_lt.mpr h4)
    · constructor
      · intro h; exact absurd h (by simp)
      · intro ⟨hf, _, _⟩; exact absurd h5 (hf a (List.mem_cons_self _ _)).2.2.2.2
    · constructor
      · intro h; exact absurd h (by simp)
      · intro ⟨_, _, hseen⟩; exact absurd h6 (hseen a (List.mem_cons_self _ _))
    · rw [ih]
      constructor
      · intro ⟨hf, hnd, hseen⟩
        refine ⟨?_, ?_, ?_⟩
        · intro s hs
          rcases List.mem_cons.mp hs with h | h
          · subst h; exact ⟨h1, h2, h3, lt_of_not_le h4, h5⟩
          · exact hf s h
        · rw [List.map_cons, List.nodup_cons]
          refine ⟨?_, hnd⟩
          intro hmem
          obtain ⟨s, hsl, hsid⟩ := List.mem_map.mp hmem
          exact (hseen s hsl) (hsid ▸ List.mem_cons_self _ _)
        · intro s hs
          rcases List.mem_cons.mp hs with h | h
          · subst h; exact h6
          · exact fun hc => (hseen s h) (List.mem_cons_of_mem _ hc)
      · intro ⟨hf, hnd, hseen⟩
        refine ⟨fun s hs => hf s (List.mem_cons_of_mem _ hs), ?_, ?_⟩
        · rw [List.map_cons, List.nodup_cons] at hnd
          exact hnd.2
        · intro s hs hc
          rcases List.mem_cons.mp hc with h' | h'
          · rw [List.map_cons, List.nodup_cons] at hnd
            exact hnd.1 (h' ▸ List.mem_map_of_mem Story.id hs)
          · exact (hseen s (List.mem_cons_of_mem _ hs)) h'

lemma except_unit_error_of_ne_ok (x : Except String Unit) (h : x ≠ .ok ()) :
    ∃ m, x = .error m := by
  cases x with
  | error m => exact ⟨m, rfl⟩
  | ok u => cases u; exact absurd rfl h

/-- C4: `validate_prd` rejects an empty task list, an empty collection name,
duplicate task ids, non-positive priorities and empty acceptance-criteria
lists, and accepts any document free of these defects whose ids, titles and
descriptions are all non-empty. -/
theorem c4_validation_rules (prd : Prd) :
    (prd.stories = [] → ∃ m, validate_prd prd = .error m) ∧
    (prd.branch_name = "" → ∃ m, validate_prd prd = .error m) ∧
    (¬ (prd.stories.map Story.id).Nodup → ∃ m, validate_prd prd = .error m) ∧
    (∀ s ∈ prd.stories, s.priority ≤ 0 → ∃ m, validate_prd prd = .error m) ∧
    (∀ s ∈ prd.stories, s.acceptance_criteria = [] → ∃ m, validate_prd prd = .error m) ∧
    (prd.branch_name ≠ "" → prd.stories ≠ [] → (prd.stories.map Story.id).Nodup →
      (∀ s ∈ prd.stories, okFields s) → validate_prd prd = .ok ()) := by
  have hok : ∀ h : validate_prd prd = .ok (),
      (∀ s ∈ prd.stories, okFields s) ∧ (prd.stories.map Story.id).Nodup ∧
        prd.stories ≠ [] ∧ prd.branch_name ≠ "" := by
    intro h
    unfold validate_prd at h
    split_ifs at h with hb hs
    obtain ⟨hf, hnd, _⟩ := (validateStories_ok_iff prd.stories 0 []).mp h
    exact ⟨hf, hnd, hs, hb⟩
  refine ⟨?_, ?_, ?_, ?_, ?_, ?_⟩
  · intro he
    exact except_unit_error_of_ne_ok _ (fun h => (hok h).2.2.1 he)
  · intro he
    exact except_unit_error_of_ne_ok _ (fun h => (hok h).2.2.2 he)
  · intro hnd
    exact except_unit_error_of_ne_ok _ (fun h => hnd (hok h).2.1)
  · intro s hs hp
    refine except_unit_error_of_ne_ok _ (fun h => ?_)
    exact absurd ((hok h).1 s hs).2.2.2.1 (not_lt.mpr hp)
  · intro s hs hc
    refine except_unit_error_of_ne_ok _ (fun h => ?_)
    exact ((hok h).1 s hs).2.2.2.2 hc
  · intro hb hs hnd hf
    unfold validate_prd
    rw [if_neg hb, if_neg hs]
    exact (validateStories_ok_iff prd.stories 0 []).mpr ⟨hf, hnd, by simp⟩

/-- Concrete documents for the C4 witness. -/
def c4good : Prd := ⟨"main", [⟨"S1", "t", "d", 1, false, ["c"]⟩, ⟨"S2", "t", "d", 2, false, ["c"]⟩]⟩
def c4dup : Prd := ⟨"main", [⟨"S1", "t", "d", 1, false, ["c"]⟩, ⟨"S1", "t", "d", 2, false, ["c"]⟩]⟩

/-- Witness for C4: the defect-free document `c4good` is accepted, and the
duplicate-id document `c4dup` is rejected. -/
theorem c4_validation_rules_witness :
    validate_prd c4good = .ok () ∧ ∃ m, validate_prd c4dup = .error m :=
  ⟨(c4_validation_rules c4good).2.2.2.2.2 (by decide) (by simp [c4good])
      (by simp [c4good]) (by decide),
    (c4_validation_rules c4dup).2.2.1 (by simp [c4dup])⟩

/-! ### Structured Extractor, syntactic stage (C2, C10)

`clean_json_response` (src/prompts.rs lines 171-195) is modelled over
`List Char`.  Rust byte positions and the character positions used here agree
observationally: `find`/`rfind` look for the single-byte ASCII characters
`{` and `}`, so the slice `[start..=end]` is exactly the character span from
the first brace to the last close brace, it is empty when the close brace
immediately precedes the brace, and it panics (`slice index starts at ...
but ends at ...`) exactly when the byte gap — equivalently the character
gap — is larger than that. -/

/-- Outcome of a Rust function returning `anyhow::Result`, with an extra
variant for a panic (`&s[a..=b]` panics when `a > b + 1`). -/
inductive RustResult (α : Type) where
  | ok (val : α)
  | err (msg : String)
  | panic
deriving Repr, DecidableEq

/-- The Unicode `White_Space` code points, the set trimmed by Rust
`str::trim` (via `char::is_whitespace`). -/
def rustIsWhitespace (c : Char) : Bool :=
  [0x09, 0x0A, 0x0B, 0x0C, 0x0D, 0x20, 0x85, 0xA0, 0x1680,
    0x2000, 0x2001, 0x2002, 0x2003, 0x2004, 0x2005, 0x2006, 0x2007, 0x2008,
    0x2009, 0x200A, 0x2028, 0x2029, 0x202F, 0x205F, 0x3000].contains c.toNat

/-- Rust `str::trim`. -/
def rustTrim (l : List Char) : List Char :=
  ((l.dropWhile rustIsWhitespace).reverse.dropWhile rustIsWhitespace).reverse

/-- Strip one trailing carriage return (the `\r` of a `\r\n` line ending). -/
def stripTrailingCr (l : List Char) : List Char :=
  if l.getLast? = some '\r' then l.dropLast else l

/-- Worker for `rustLines`; `acc` holds the current line reversed. -/
def linesAux : List Char → List Char → List (List Char)
  | [], [] => []
  | [], acc => [acc.reverse]
  | c :: rest, acc =>
    if c = '\n' then stripTrailingCr acc.reverse :: linesAux rest []
    else linesAux rest (c :: acc)

/-- Rust `str::lines`: split at `\n`, strip a `\r` preceding each split
point, no empty segment after a final newline. -/
def rustLines (l : List Char) : List (List Char) := linesAux l []

/-- The triple-backtick fence marker (U+0060 ×3). -/
def fenceMarker : List Char := [Char.ofNat 96, Char.ofNat 96, Char.ofNat 96]

def openBrace : Char := Char.ofNat 123

def closeBrace : Char := Char.ofNat 125

/-- Rust `str::find(char)`: index of the first occurrence. -/
def findChar (c : Char) : List Char → Option Nat
  | [] => none
  | a :: rest => if a = c then some 0 else (findChar c rest).map (· + 1)

/-- Rust `str::rfind(char)`: index of the last occurrence. -/
def rfindChar (c : Char) : List Char → Option Nat
  | [] => none
  | a :: rest =>
    match rfindChar c rest with
    | some i => some (i + 1)
    | none => if a = c then some 0 else none

/-- The fence-stripping stage of `clean_json_response` (src/prompts.rs
lines 175-184): if the trimmed text starts with the fence marker and has
more than two lines, drop the first and last lines and rejoin with `\n`. -/
def strip_fences (trimmed : List Char) : List Char :=
  if fenceMarker.isPrefixOf trimmed then
    let lines := rustLines trimmed
    if 2 < lines.length then
      List.intercalate ['\n'] ((lines.drop 1).dropLast)
    else trimmed
  else trimmed

/-- `clean_json_response` (src/prompts.rs lines 171-195).  The Rust slice
`&without_fences[start..=end]` panics when `start > end + 1`; otherwise it
is the character span `drop start, take (end + 1 - start)`. -/
def clean_json_response (response : List Char) : RustResult (List Char) :=
  match findChar openBrace (strip_fences (rustTrim response)),
        rfindChar closeBrace (strip_fences (rustTrim response)) with
  | none, _ => .err "No opening brace found in response"
  | some _, none => .err "No closing brace found in response"
  | some start, some stop =>
    if start ≤ stop + 1 then
      .ok (((strip_fences (rustTrim response)).drop start).take (stop + 1 - start))
    else .panic

lemma findChar_eq_none_of_not_mem (c : Char) :
    ∀ (l : List Char), c ∉ l → findChar c l = none := by
  intro l
  induction l with
  | nil => intro _; rfl
  | cons a rest ih =>
    intro h
    simp only [List.mem_cons, not_or] at h
    have ha : ¬ a = c := fun he => h.1 he.symm
    simp [findChar, ha, ih h.2]

lemma rfindChar_eq_none_of_not_mem (c : Char) :
    ∀ (l : List Char), c ∉ l → rfindChar c l = none := by
  intro l
  induction l with
  | nil => intro _; rfl
  | cons a rest ih =>
    intro h
    simp only [List.mem_cons, not_or] at h
    have ha : ¬ a = c := fun he => h.1 he.symm
    simp [rfindChar, ih h.2, ha]

lemma findChar_first (c : Char) : ∀ (l : List Char) (i : Nat),
    l[i]? = some c → (∀ j < i, l[j]? ≠ some c) → findChar c l = some i := by
  intro l
  induction l with
  | nil => intro i h _; simp at h
  | cons a rest ih =>
    intro i h hmin
    cases i with
    | zero =>
      simp only [List.getElem?_cons_zero, Option.some.injEq] at h
      simp [findChar, h]
    | succ i =>
      have ha : ¬ a = c := by
        intro he
        exact hmin 0 (Nat.succ_pos _) (by simp [he])
      simp only [List.getElem?_cons_succ] at h
      have hmin' : ∀ j < i, rest[j]? ≠ some c := by
        intro j hj
        have := hmin (j + 1) (Nat.succ_lt_succ hj)
        simpa using this
      simp [findChar, ha, ih i h hmin']

lemma rfindChar_last (c : Char) : ∀ (l : List Char) (i : Nat),
    l[i]? = some c → (∀ j < l.length, i < j → l[j]? ≠ some c) →
    rfindChar c l = some i := by
  intro l
  induction l with
  | nil => intro i h _; simp at h
  | cons a rest ih =>
    intro i h hmax
    cases i with
    | zero =>
      simp only [List.getElem?_cons_zero, Option.some.injEq] at h
      have hrest : c ∉ rest := by
        intro hmem
        obtain ⟨j, hj, hget⟩ := List.getElem_of_mem hmem
        refine hmax (j + 1) (by simpa using Nat.succ_lt_succ hj) (Nat.succ_pos _) ?_
        simp [List.getElem?_cons_succ, List.getElem?_eq_getElem hj, hget]
      simp [rfindChar, rfindChar_eq_none_of_not_mem c rest hrest, h]
    | succ i =>
      simp only [List.getElem?_cons_succ] at h
      have hmax' : ∀ j < rest.length, i < j → rest[j]? ≠ some c := by
        intro j hjl hj
        have := hmax (j + 1) (by simpa using Nat.succ_lt_succ hjl) (Nat.succ_lt_succ hj)
        simpa using this
      simp [rfindChar, ih i h hmax']

lemma findChar_eq_some_of_mem (c : Char) :
    ∀ (l : List Char), c ∈ l → ∃ i, findChar c l = some i := by
  intro l
  induction l with
  | nil => intro h; simp at h
  | cons a rest ih =>
    intro h
    by_cases ha : a = c
    · exact ⟨0, by simp [findChar, ha]⟩
    · have hc : c ∈ rest := by
        rcases List.mem_cons.mp h with h' | h'
        · exact absurd h'.symm ha
        · exact h'
      obtain ⟨i, hi⟩ := ih hc
      exact ⟨i + 1, by simp [findChar, ha, hi]⟩

/-- C2 (amended): after trimming, fence stripping behaves as described, and
from the fence-stripped text, *when the first `{` occurs at or before the
last `}`*, `clean_json_response` returns the inclusive substring between
them; it fails with the opening-brace boundary error when `{` is absent and
with the closing-brace boundary error when `{` is present but `}` is not;
`"noise {"a":1} trailing"` yields exactly `{"a":1}`; an input with no `{`
fails with a boundary error; fence lines of a fenced block of more than two
lines are stripped before the boundary search.  (When both braces are
present but the last `}` precedes the first `{`, the code panics or returns
the empty string instead — see the C2 counterexample and C10.) -/
theorem c2_extractor_amended :
    (∀ r s e, (strip_fences (rustTrim r))[s]? = some openBrace →
      (∀ j < s, (strip_fences (rustTrim r))[j]? ≠ some openBrace) →
      (strip_fences (rustTrim r))[e]? = some closeBrace →
      (∀ j < (strip_fences (rustTrim r)).length, e < j →
        (strip_fences (rustTrim r))[j]? ≠ some closeBrace) →
      s ≤ e →
      clean_json_response r =
        .ok (((strip_fences (rustTrim r)).drop s).take (e + 1 - s))) ∧
    (∀ r, openBrace ∉ strip_fences (rustTrim r) →
      clean_json_response r = .err "No opening brace found in response") ∧
    (∀ r, openBrace ∈ strip_fences (rustTrim r) →
      closeBrace ∉ strip_fences (rustTrim r) →
      clean_json_response r = .err "No closing brace found in response") ∧
    clean_json_response ("noise \x7b\"a\":1\x7d trailing".toList) =
      .ok ("\x7b\"a\":1\x7d".toList) ∧
    clean_json_response ("no brackets here".toList) =
      .err "No opening brace found in response" ∧
    clean_json_response ("```json\n\x7b\"a\":1\x7d\n```".toList) =
      .ok ("\x7b\"a\":1\x7d".toList) := by
  refine ⟨?_, ?_, ?_, by decide, by decide, by decide⟩
  · intro r s e hs hsmin he hemax hse
    have hf := findChar_first openBrace _ s hs hsmin
    have hr := rfindChar_last closeBrace _ e he hemax
    simp only [clean_json_response, hf, hr]
    rw [if_pos (by omega)]
  · intro r hno
    simp only [clean_json_response, findChar_eq_none_of_not_mem openBrace _ hno]
  · intro r hyes hno
    obtain ⟨i, hi⟩ := findChar_eq_some_of_mem openBrace _ hyes
    simp only [clean_json_response, hi,
      rfindChar_eq_none_of_not_mem closeBrace _ hno]

/-- Witness for C2 (amended) at the concrete input `ab{c}d`: the first `{`
is at index 2, the last `}` at index 4, and the extractor returns the
inclusive span between them. -/
theorem c2_extractor_amended_witness :
    clean_json_response ("ab\x7bc\x7dd".toList) =
      .ok (((strip_fences (rustTrim ("ab\x7bc\x7dd".toList))).drop 2).take (4 + 1 - 2)) :=
  c2_extractor_amended.1 ("ab\x7bc\x7dd".toList) 2 4 (by decide) (by decide)
    (by decide) (by decide) (by decide)

/-- C2 counterexample: on the input `}x{` — which contains both braces, so
by the claim the extractor should return the inclusive substring from the
first `{` to the last `}` — the code instead panics: the Rust slice
`&s[2..=0]` aborts with a slice-index failure. -/
theorem c2_extractor_counterexample :
    clean_json_response ("\x7dx\x7b".toList) = .panic := by decide

/-- C10: `clean_json_response` is *not* total: on the input `} {`, whose
last `}` (index 0) precedes its first `{` (index 2) by more than one
position, the Rust slice `&s[2..=0]` panics instead of returning `Ok` or
`Err`.  (When the braces are exactly adjacent in reverse order, as in
`}{`, the slice is empty and the function returns `Ok("")`.) -/
theorem c10_clean_json_panics :
    clean_json_response ("\x7d \x7b".toList) = .panic ∧
    clean_json_response ("\x7d\x7b".toList) = .ok [] := by decide

/-! ### Task Document schema parsing (C5, C6)

The serde derives on `Prd` and `Story` (src/types.rs lines 10-28) are
modelled at the JSON-tree level.  The derive has no `deny_unknown_fields`
attribute, so the generated `Deserialize` silently skips unknown keys; a
known key seen twice is a `duplicate field` error; required fields that
never appear are a `missing field` error; `priority`, `passes` and
`acceptance_criteria` carry `#[serde(default)]`, and `branch_name` is
renamed to `branchName`.  Serialization writes the fields in declaration
order.  The text layer (serde_json printing/lexing) is an external crate
and is not part of this repository. -/

inductive Json where
  | null
  | bool (b : Bool)
  | num (n : Int)
  | str (s : String)
  | arr (xs : List Json)
  | obj (kvs : List (String × Json))
deriving Repr

def getString : Json → Except String String
  | .str s => .ok s
  | _ => .error "invalid type: expected a string"

def getBool : Json → Except String Bool
  | .bool b => .ok b
  | _ => .error "invalid type: expected a boolean"

def getInt : Json → Except String Int
  | .num n => .ok n
  | _ => .error "invalid type: expected an integer"

def parseStrings : List Json → Except String (List String)
  | [] => .ok []
  | j :: rest => do
    let s ← getString j
    let r ← parseStrings rest
    .ok (s :: r)

def getStringList : Json → Except String (List String)
  | .arr xs => parseStrings xs
  | _ => .error "invalid type: expected a sequence"

/-- Field accumulator for the derived `Story` visitor. -/
structure StorySlots where
  id : Option String := none
  title : Option String := none
  description : Option String := none
  priority : Option Int := none
  passes : Option Bool := none
  acceptance_criteria : Option (List String) := none

/-- One key/value step of the derived `Story` visitor: known keys fill
their slot (duplicates are an error), unknown keys are skipped. -/
def setStoryField (slots : StorySlots) (kv : String × Json) : Except String StorySlots :=
  if kv.1 = "id" then
    match slots.id with
    | some _ => .error "duplicate field id"
    | none => do let v ← getString kv.2; .ok { slots with id := some v }
  else if kv.1 = "title" then
    match slots.title with
    | some _ => .error "duplicate field title"
    | none => do let v ← getString kv.2; .ok { slots with title := some v }
  else if kv.1 = "description" then
    match slots.description with
    | some _ => .error "duplicate field description"
    | none => do let v ← getString kv.2; .ok { slots with description := some v }
  else if kv.1 = "priority" then
    match slots.priority with
    | some _ => .error "duplicate field priority"
    | none => do let v ← getInt kv.2; .ok { slots with priority := some v }
  else if kv.1 = "passes" then
    match slots.passes with
    | some _ => .error "duplicate field passes"
    | none => do let v ← getBool kv.2; .ok { slots with passes := some v }
  else if kv.1 = "acceptance_criteria" then
    match slots.acceptance_criteria with
    | some _ => .error "duplicate field acceptance_criteria"
    | none => do let v ← getStringList kv.2; .ok { slots with acceptance_criteria := some v }
  else
    .ok slots

def foldStoryFields : StorySlots → List (String × Json) → Except String StorySlots
  | slots, [] => .ok slots
  | slots, kv :: rest => do
    let slots' ← setStoryField slots kv
    foldStoryFields slots' rest

/-- Derived `Deserialize` for `Story`: required `id`, `title`,
`description`; defaulted `priority` (0), `passes` (false),
`acceptance_criteria` ([]). -/
def parse_story (j : Json) : Except String Story :=
  match j with
  | .obj kvs =>
    match foldStoryFields {} kvs with
    | .error e => .error e
    | .ok slots =>
      match slots.id with
      | none => .error "missing field id"
      | some id =>
        match slots.title with
        | none => .error "missing field title"
        | some title =>
          match slots.description with
          | none => .error "missing field description"
          | some description =>
            .ok { id := id, title := title, description := description,
                  priority := slots.priority.getD 0,
                  passes := slots.passes.getD false,
                  acceptance_criteria := slots.acceptance_criteria.getD [] }
  | _ => .error "invalid type: expected struct Story"

def parseStories : List Json → Except String (List Story)
  | [] => .ok []
  | j :: rest => do
    let s ← parse_story j
    let r ← parseStories rest
    .ok (s :: r)

/-- Field accumulator for the derived `Prd` visitor. -/
structure PrdSlots where
  branch_name : Option String := none
  stories : Option (List Story) := none

def setPrdField (slots : PrdSlots) (kv : String × Json) : Except String PrdSlots :=
  if kv.1 = "branchName" then
    match slots.branch_name with
    | some _ => .error "duplicate field branchName"
    | none => do let v ← getString kv.2; .ok { slots with branch_name := some v }
  else if kv.1 = "stories" then
    match slots.stories with
    | some _ => .error "duplicate field stories"
    | none =>
      match kv.2 with
      | .arr xs => do let v ← parseStories xs; .ok { slots with stories := some v }
      | _ => .error "invalid type: expected a sequence"
  else
    .ok slots

def foldPrdFields : PrdSlots → List (String × Json) → Except String PrdSlots
  | slots, [] => .ok slots
  | slots, kv :: rest => do
    let slots' ← setPrdField slots kv
    foldPrdFields slots' rest

/-- Derived `Deserialize` for `Prd`: required `branchName` (the rename of
`branch_name`) and `stories`. -/
def parse_prd (j : Json) : Except String Prd :=
  match j with
  | .obj kvs =>
    match foldPrdFields {} kvs with
    | .error e => .error e
    | .ok slots =>
      match slots.branch_name with
      | none => .error "missing field branchName"
      | some branch_name =>
        match slots.stories with
        | none => .error "missing field stories"
        | some stories => .ok { branch_name := branch_name, stories := stories }
  | _ => .error "invalid type: expected struct Prd"

/-- Derived `Serialize` for `Story` (declaration field order). -/
def story_to_json (s : Story) : Json :=
  .obj [("id", .str s.id), ("title", .str s.title),
    ("description", .str s.description), ("priority", .num s.priority),
    ("passes", .bool s.passes),
    ("acceptance_criteria", .arr (s.acceptance_criteria.map .str))]

/-- Derived `Serialize` for `Prd`. -/
def prd_to_json (p : Prd) : Json :=
  .obj [("branchName", .str p.branch_name),
    ("stories", .arr (p.stories.map story_to_json))]

lemma parseStrings_map_str (cs : List String) :
    parseStrings (cs.map Json.str) = .ok cs := by
  induction cs with
  | nil => rfl
  | cons c rest ih =>
    simp only [List.map_cons, parseStrings, getString, ih]
    rfl

lemma parse_story_roundtrip (s : Story) : parse_story (story_to_json s) = .ok s := by
  have h : getStringList (.arr (s.acceptance_criteria.map Json.str)) =
      .ok s.acceptance_criteria := by
    simp only [getStringList, parseStrings_map_str s.acceptance_criteria]
  simp only [parse_story, story_to_json, foldStoryFields, setStoryField, getString,
    getInt, getBool, h]
  rfl

lemma parseStories_map (l : List Story) :
    parseStories (l.map story_to_json) = .ok l := by
  induction l with
  | nil => rfl
  | cons s rest ih =>
    simp only [List.map_cons, parseStories, parse_story_roundtrip, ih]
    rfl

lemma parse_prd_roundtrip (p : Prd) : parse_prd (prd_to_json p) = .ok p := by
  simp only [parse_prd, prd_to_json, foldPrdFields, setPrdField, getString,
    parseStories_map]
  rfl

lemma setStoryField_req (slots : StorySlots) (kv : String × Json) (slots' : StorySlots)
    (h : setStoryField slots kv = .ok slots') :
    (kv.1 ≠ "id" → slots'.id = slots.id) ∧
    (kv.1 ≠ "title" → slots'.title = slots.title) ∧
    (kv.1 ≠ "description" → slots'.description = slots.description) := by
  unfold setStoryField at h
  split_ifs at h with h1 h2 h3 h4 h5 h6
  · cases hs : slots.id with
    | some v => rw [hs] at h; exact Except.noConfusion h
    | none =>
      rw [hs] at h
      cases hg : getString kv.2 with
      | error e => rw [hg] at h; exact Except.noConfusion h
      | ok v =>
        rw [hg] at h
        have hEq := Except.ok.inj h
        subst hEq
        exact ⟨fun hne => absurd h1 hne, fun _ => rfl, fun _ => rfl⟩
  · cases hs : slots.title with
    | some v => rw [hs] at h; exact Except.noConfusion h
    | none =>
      rw [hs] at h
      cases hg : getString kv.2 with
      | error e => rw [hg] at h; exact Except.noConfusion h
      | ok v =>
        rw [hg] at h
        have hEq := Except.ok.inj h
        subst hEq
        exact ⟨fun _ => rfl, fun hne => absurd h2 hne, fun _ => rfl⟩
  · cases hs : slots.description with
    | some v => rw [hs] at h; exact Except.noConfusion h
    | none =>
      rw [hs] at h
      cases hg : getString kv.2 with
      | error e => rw [hg] at h; exact Except.noConfusion h
      | ok v =>
        rw [hg] at h
        have hEq := Except.ok.inj h
        subst hEq
        exact ⟨fun _ => rfl, fun _ => rfl, fun hne => absurd h3 hne⟩
  · cases hs : slots.priority with
    | some v => rw [hs] at h; exact Except.noConfusion h
    | none =>
      rw [hs] at h
      cases hg : getInt kv.2 with
      | error e => rw [hg] at h; exact Except.noConfusion h
      | ok v =>
        rw [hg] at h
        have hEq := Except.ok.inj h
        subst hEq
        exact ⟨fun _ => rfl, fun _ => rfl, fun _ => rfl⟩
  · cases hs : slots.passes with
    | some v => rw [hs] at h; exact Except.noConfusion h
    | none =>
      rw [hs] at h
      cases hg : getBool kv.2 with
      | error e => rw [hg] at h; exact Except.noConfusion h
      | ok v =>
        rw [hg] at h
        have hEq := Except.ok.inj h
        subst hEq
        exact ⟨fun _ => rfl, fun _ => rfl, fun _ => rfl⟩
  · cases hs : slots.acceptance_criteria with
    | some v => rw [hs] at h; exact Except.noConfusion h
    | none =>
      rw [hs] at h
      cases hg : getStringList kv.2 with
      | error e => rw [hg] at h; exact Except.noConfusion h
      | ok v =>
        rw [hg] at h
        have hEq := Except.ok.inj h
        subst hEq
        exact ⟨fun _ => rfl, fun _ => rfl, fun _ => rfl⟩
  · have hEq := Except.ok.inj h
    subst hEq
    exact ⟨fun _ => rfl, fun _ => rfl, fun _ => rfl⟩

lemma foldStoryFields_preserve {α : Type} (name : String) (g : StorySlots → α)
    (hset : ∀ slots kv slots', setStoryField slots kv = .ok slots' →
      kv.1 ≠ name → g slots' = g slots) :
    ∀ (kvs : List (String × Json)) (slots slots' : StorySlots),
      (∀ p ∈ kvs, p.1 ≠ name) →
      foldStoryFields slots kvs = .ok slots' → g slots' = g slots := by
  intro kvs
  induction kvs with
  | nil =>
    intro slots slots' _ h
    have hEq := Except.ok.inj h
    rw [hEq]
  | cons kv rest ih =>
    intro slots slots' hk h
    simp only [foldStoryFields] at h
    cases hsf : setStoryField slots kv with
    | error e => rw [hsf] at h; exact Except.noConfusion h
    | ok slots₁ =>
      rw [hsf] at h
      have h' : foldStoryFields slots₁ rest = .ok slots' := h
      have step := hset slots kv slots₁ hsf (hk kv (List.mem_cons_self _ _))
      have tail := ih slots₁ slots' (fun p hp => hk p (List.mem_cons_of_mem _ hp)) h'
      rw [tail, step]

lemma parse_story_missing_id (kvs : List (String × Json))
    (h : ∀ p ∈ kvs, p.1 ≠ "id") : ∃ m, parse_story (.obj kvs) = .error m := by
  cases hfold : foldStoryFields {} kvs with
  | error e => exact ⟨e, by simp only [parse_story, hfold]⟩
  | ok slots =>
    have hid : slots.id = none :=
      foldStoryFields_preserve "id" (fun s => s.id)
        (fun s kv s' hs hne => (setStoryField_req s kv s' hs).1 hne)
        kvs {} slots h hfold
    exact ⟨"missing field id", by simp only [parse_story, hfold, hid]⟩

lemma parse_story_missing_title (kvs : List (String × Json))
    (h : ∀ p ∈ kvs, p.1 ≠ "title") : ∃ m, parse_story (.obj kvs) = .error m := by
  cases hfold : foldStoryFields {} kvs with
  | error e => exact ⟨e, by simp only [parse_story, hfold]⟩
  | ok slots =>
    have ht : slots.title = none :=
      foldStoryFields_preserve "title" (fun s => s.title)
        (fun s kv s' hs hne => (setStoryField_req s kv s' hs).2.1 hne)
        kvs {} slots h hfold
    cases hid : slots.id with
    | none => exact ⟨"missing field id", by simp only [parse_story, hfold, hid]⟩
    | some v =>
      exact ⟨"missing field title", by simp only [parse_story, hfold, hid, ht]⟩

lemma parse_story_missing_description (kvs : List (String × Json))
    (h : ∀ p ∈ kvs, p.1 ≠ "description") : ∃ m, parse_story (.obj kvs) = .error m := by
  cases hfold : foldStoryFields {} kvs with
  | error e => exact ⟨e, by simp only [parse_story, hfold]⟩
  | ok slots =>
    have hd : slots.description = none :=
      foldStoryFields_preserve "description" (fun s => s.description)
        (fun s kv s' hs hne => (setStoryField_req s kv s' hs).2.2 hne)
        kvs {} slots h hfold
    cases hid : slots.id with
    | none => exact ⟨"missing field id", by simp only [parse_story, hfold, hid]⟩
    | some v =>
      cases ht : slots.title with
      | none => exact ⟨"missing field title", by simp only [parse_story, hfold, hid, ht]⟩
      | some w =>
        exact ⟨"missing field description",
          by simp only [parse_story, hfold, hid, ht, hd]⟩

lemma setPrdField_req (slots : PrdSlots) (kv : String × Json) (slots' : PrdSlots)
    (h : setPrdField slots kv = .ok slots') :
    (kv.1 ≠ "branchName" → slots'.branch_name = slots.branch_name) ∧
    (kv.1 ≠ "stories" → slots'.stories = slots.stories) := by
  unfold setPrdField at h
  split_ifs at h with h1 h2
  · cases hs : slots.branch_name with
    | some v => rw [hs] at h; exact Except.noConfusion h
    | none =>
      rw [hs] at h
      cases hg : getString kv.2 with
      | error e => rw [hg] at h; exact Except.noConfusion h
      | ok v =>
        rw [hg] at h
        have hEq := Except.ok.inj h
        subst hEq
        exact ⟨fun hne => absurd h1 hne, fun _ => rfl⟩
  · cases hs : slots.stories with
    | some v => rw [hs] at h; exact Except.noConfusion h
    | none =>
      rw [hs] at h
      cases hj : kv.2 with
      | null => rw [hj] at h; exact Except.noConfusion h
      | bool b => rw [hj] at h; exact Except.noConfusion h
      | num n => rw [hj] at h; exact Except.noConfusion h
      | str s => rw [hj] at h; exact Except.noConfusion h
      | obj o => rw [hj] at h; exact Except.noConfusion h
      | arr xs =>
        rw [hj] at h
        have h' : Except.bind (parseStories xs)
            (fun v => Except.ok (PrdSlots.mk slots.branch_name (some v))) =
            Except.ok slots' := h
        cases hg : parseStories xs with
        | error e => rw [hg] at h'; exact Except.noConfusion h'
        | ok v =>
          rw [hg] at h'
          have hEq := Except.ok.inj h'
          subst hEq
          exact ⟨fun _ => rfl, fun hne => absurd h2 hne⟩
  · have hEq := Except.ok.inj h
    subst hEq
    exact ⟨fun _ => rfl, fun _ => rfl⟩

lemma foldPrdFields_preserve {α : Type} (name : String) (g : PrdSlots → α)
    (hset : ∀ slots kv slots', setPrdField slots kv = .ok slots' →
      kv.1 ≠ name → g slots' = g slots) :
    ∀ (kvs : List (String × Json)) (slots slots' : PrdSlots),
      (∀ p ∈ kvs, p.1 ≠ name) →
      foldPrdFields slots kvs = .ok slots' → g slots' = g slots := by
  intro kvs
  induction kvs with
  | nil =>
    intro slots slots' _ h
    have hEq := Except.ok.inj h
    rw [hEq]
  | cons kv rest ih =>
    intro slots slots' hk h
    simp only [foldPrdFields] at h
    cases hsf : setPrdField slots kv with
    | error e => rw [hsf] at h; exact Except.noConfusion h
    | ok slots₁ =>
      rw [hsf] at h
      have h' : foldPrdFields slots₁ rest = .ok slots' := h
      have step := hset slots kv slots₁ hsf (hk kv (List.mem_cons_self _ _))
      have tail := ih slots₁ slots' (fun p hp => hk p (List.mem_cons_of_mem _ hp)) h'
      rw [tail, step]

lemma parse_prd_missing_branchName (kvs : List (String × Json))
    (h : ∀ p ∈ kvs, p.1 ≠ "branchName") : ∃ m, parse_prd (.obj kvs) = .error m := by
  cases hfold : foldPrdFields {} kvs with
  | error e => exact ⟨e, by simp only [parse_prd, hfold]⟩
  | ok slots =>
    have hb : slots.branch_name = none :=
      foldPrdFields_preserve "branchName" (fun s => s.branch_name)
        (fun s kv s' hs hne => (setPrdField_req s kv s' hs).1 hne)
        kvs {} slots h hfold
    exact ⟨"missing field branchName", by simp only [parse_prd, hfold, hb]⟩

lemma parse_prd_missing_stories (kvs : List (String × Json))
    (h : ∀ p ∈ kvs, p.1 ≠ "stories") : ∃ m, parse_prd (.obj kvs) = .error m := by
  cases hfold : foldPrdFields {} kvs with
  | error e => exact ⟨e, by simp only [parse_prd, hfold]⟩
  | ok slots =>
    have hs : slots.stories = none :=
      foldPrdFields_preserve "stories" (fun s => s.stories)
        (fun s kv s' hsf hne => (setPrdField_req s kv s' hsf).2 hne)
        kvs {} slots h hfold
    cases hb : slots.branch_name with
    | none => exact ⟨"missing field branchName", by simp only [parse_prd, hfold, hb]⟩
    | some v =>
      exact ⟨"missing field stories", by simp only [parse_prd, hfold, hb, hs]⟩

lemma setStoryField_unknown (slots : StorySlots) (k : String) (v : Json)
    (hk : k ∉ ["id", "title", "description", "priority", "passes",
      "acceptance_criteria"]) :
    setStoryField slots (k, v) = .ok slots := by
  have h1 : ¬ k = "id" := fun he => hk (by simp [he])
  have h2 : ¬ k = "title" := fun he => hk (by simp [he])
  have h3 : ¬ k = "description" := fun he => hk (by simp [he])
  have h4 : ¬ k = "priority" := fun he => hk (by simp [he])
  have h5 : ¬ k = "passes" := fun he => hk (by simp [he])
  have h6 : ¬ k = "acceptance_criteria" := fun he => hk (by simp [he])
  simp [setStoryField, h1, h2, h3, h4, h5, h6]

lemma foldStoryFields_unknown (k : String) (v : Json)
    (hk : k ∉ ["id", "title", "description", "priority", "passes",
      "acceptance_criteria"]) (kvs₂ : List (String × Json)) :
    ∀ (kvs₁ : List (String × Json)) (slots : StorySlots),
      foldStoryFields slots (kvs₁ ++ (k, v) :: kvs₂) =
        foldStoryFields slots (kvs₁ ++ kvs₂) := by
  intro kvs₁
  induction kvs₁ with
  | nil =>
    intro slots
    simp only [List.nil_append, foldStoryFields, setStoryField_unknown slots k v hk]
    rfl
  | cons kv0 rest ih =>
    intro slots
    simp only [List.cons_append, foldStoryFields]
    cases hsf : setStoryField slots kv0 with
    | error e => rfl
    | ok slots₁ => exact ih slots₁

/-- C6: parsing the serialized form of any valid Task Document yields the
document back, all field values and the order of the `stories` list
preserved (validity is not even needed: the round-trip holds for every
document). -/
theorem c6_roundtrip (D : Prd) (_h : validate_prd D = .ok ()) :
    parse_prd (prd_to_json D) = .ok D :=
  parse_prd_roundtrip D

/-- Witness for C6 at the concrete valid document `c4good`. -/
theorem c6_roundtrip_witness :
    parse_prd (prd_to_json c4good) = .ok c4good :=
  c6_roundtrip c4good (by rfl)

/-- C5 (amended): missing required fields (`id`, `title`, `description` on a
task; `branchName`, `stories` on the document) make schema parsing fail;
an absent `priority` defaults to 0, an absent `passes` flag to false, and an
absent `acceptance_criteria` list to the empty list, and the priority-0 /
empty-list defaults are then rejected by `validate_prd`; but an *unknown*
field does not make parsing fail — the serde derive carries no
`deny_unknown_fields`, so unknown keys are silently skipped. -/
theorem c5_schema_parsing_amended :
    (∀ (k : String) (v : Json) kvs₁ kvs₂,
      k ∉ ["id", "title", "description", "priority", "passes",
        "acceptance_criteria"] →
      parse_story (.obj (kvs₁ ++ (k, v) :: kvs₂)) =
        parse_story (.obj (kvs₁ ++ kvs₂))) ∧
    (∀ kvs, (∀ p ∈ kvs, p.1 ≠ "id") → ∃ m, parse_story (.obj kvs) = .error m) ∧
    (∀ kvs, (∀ p ∈ kvs, p.1 ≠ "title") → ∃ m, parse_story (.obj kvs) = .error m) ∧
    (∀ kvs, (∀ p ∈ kvs, p.1 ≠ "description") →
      ∃ m, parse_story (.obj kvs) = .error m) ∧
    (∀ kvs, (∀ p ∈ kvs, p.1 ≠ "branchName") →
      ∃ m, parse_prd (.obj kvs) = .error m) ∧
    (∀ kvs, (∀ p ∈ kvs, p.1 ≠ "stories") →
      ∃ m, parse_prd (.obj kvs) = .error m) ∧
    (∀ i t d, parse_story (.obj [("id", .str i), ("title", .str t),
        ("description", .str d)]) =
      .ok ⟨i, t, d, 0, false, []⟩) ∧
    (∀ i t d, i ≠ "" → t ≠ "" → d ≠ "" →
      ∃ m, validate_prd ⟨"b", [⟨i, t, d, 0, false, []⟩]⟩ = .error m) := by
  refine ⟨?_, parse_story_missing_id, parse_story_missing_title,
    parse_story_missing_description, parse_prd_missing_branchName,
    parse_prd_missing_stories, ?_, ?_⟩
  · intro k v kvs₁ kvs₂ hk
    simp only [parse_story, foldStoryFields_unknown k v hk kvs₂ kvs₁]
  · intro i t d
    rfl
  · intro i t d hi ht hd
    refine ⟨"Story " ++ i ++ " has invalid priority: " ++ toString (0 : Int), ?_⟩
    simp only [validate_prd, validateStories]
    rw [if_neg (by decide), if_neg (by simp), if_neg hi, if_neg ht, if_neg hd,
      if_pos le_rfl]

/-- Witness for C5 (amended): a story object missing the required `id`
field is rejected by schema parsing. -/
theorem c5_schema_parsing_amended_witness :
    ∃ m, parse_story (.obj [("title", Json.str "t"),
      ("description", Json.str "d")]) = .error m :=
  c5_schema_parsing_amended.2.1
    [("title", Json.str "t"), ("description", Json.str "d")]
    (by intro p hp; rcases List.mem_cons.mp hp with h | h
        · rw [h]; decide
        · rcases List.mem_cons.mp h with h' | h'
          · rw [h']; decide
          · simp at h')

/-- C5 counterexample: a document object carrying the unknown field
`someUnknownField` parses *successfully* (unknown fields are ignored, not
rejected), refuting the claim that any unknown field causes parsing to
fail. -/
theorem c5_unknown_field_counterexample :
    parse_prd (.obj [("branchName", .str "b"), ("stories", .arr []),
      ("someUnknownField", .num 7)]) = .ok ⟨"b", []⟩ := rfl

/-! ### Session Driver (C7, C8)

`run_iteration` (src/amp.rs lines 9-60) consumes a finite event stream.
Each stream element is either a decoded message (`Ok(StreamMessage::…)`) or
a transport-level error (`Err(e)`, merely logged); `other` stands for the
`_ => {}` catch-all arm over further SDK message variants.  The working
directory, options and printing are I/O glue and carry no data flow into
the returned value. -/

inductive AssistantContent where
  | text (t : String)
  | toolUse (nme : String)
deriving Repr, DecidableEq

inductive StreamItem where
  | system (sessionId : String)
  | assistant (contents : List AssistantContent)
  | result (durationMs : Nat) (numTurns : Nat) (isError : Bool) (errMsg : Option String)
  | streamErr (e : String)
  | other
deriving Repr, DecidableEq

/-- The inner `for content in &msg.message.content` loop: push each text
block onto the accumulator, ignore tool uses. -/
def pushContents (acc : String) : List AssistantContent → String
  | [] => acc
  | .text t :: rest => pushContents (acc ++ t) rest
  | .toolUse _ :: rest => pushContents acc rest

/-- The `while let Some(result) = stream.next().await` loop of
`run_iteration`: `acc` is `output_text`.  A `Result` message with
`is_error` bails out with `anyhow::bail!("Amp error: {}",
msg.error.unwrap_or_default())`; everything else continues; stream end
returns the accumulated text. -/
def runIterLoop : List StreamItem → String → Except String String
  | [], acc => .ok acc
  | item :: rest, acc =>
    match item with
    | .system _ => runIterLoop rest acc
    | .assistant cs => runIterLoop rest (pushContents acc cs)
    | .result _ _ isError errMsg =>
      if isError then .error ("Amp error: " ++ errMsg.getD "")
      else runIterLoop rest acc
    | .streamErr _ => runIterLoop rest acc
    | .other => runIterLoop rest acc

/-- `run_iteration` as a function of the received event stream. -/
def run_iteration (items : List StreamItem) : Except String String :=
  runIterLoop items ""

/-- Concatenation of the text blocks of one assistant message. -/
def textsOf : List AssistantContent → String
  | [] => ""
  | .text t :: rest => t ++ textsOf rest
  | .toolUse _ :: rest => textsOf rest

/-- Specification-side accumulator: the concatenation, in arrival order, of
all agent text across the stream. -/
def accumText : List StreamItem → String
  | [] => ""
  | .assistant cs :: rest => textsOf cs ++ accumText rest
  | _ :: rest => accumText rest

/-- Does the item carry `Completed{isError: true}`? -/
def isErrorResult : StreamItem → Bool
  | .result _ _ true _ => true
  | _ => false

/-- Does the item carry a `Completed` event at all? -/
def isResult : StreamItem → Bool
  | .result _ _ _ _ => true
  | _ => false

lemma pushContents_append (cs : List AssistantContent) :
    ∀ acc, pushContents acc cs = acc ++ textsOf cs := by
  induction cs with
  | nil => intro acc; simp [pushContents, textsOf]
  | cons c rest ih =>
    intro acc
    cases c with
    | text t => simp [pushContents, textsOf, ih, String.append_assoc]
    | toolUse nme => simp [pushContents, textsOf, ih]

lemma runIterLoop_no_result (items : List StreamItem)
    (h : ∀ item ∈ items, isResult item = false) :
    ∀ acc, runIterLoop items acc = .ok (acc ++ accumText items) := by
  induction items with
  | nil => intro acc; simp [runIterLoop, accumText]
  | cons item rest ih =>
    intro acc
    have hrest : ∀ i ∈ rest, isResult i = false :=
      fun i hi => h i (List.mem_cons_of_mem _ hi)
    cases item with
    | system sid => simp [runIterLoop, accumText, ih hrest]
    | assistant cs =>
      simp [runIterLoop, accumText, ih hrest, pushContents_append,
        String.append_assoc]
    | result d n isError errMsg =>
      exact absurd (h _ (List.mem_cons_self _ _)) (by simp [isResult])
    | streamErr e => simp [runIterLoop, accumText, ih hrest]
    | other => simp [runIterLoop, accumText, ih hrest]

lemma runIterLoop_first_error (pre rest : List StreamItem)
    (d n : Nat) (em : Option String)
    (h : ∀ item ∈ pre, isErrorResult item = false) :
    ∀ acc, runIterLoop (pre ++ .result d n true em :: rest) acc =
      .error ("Amp error: " ++ em.getD "") := by
  induction pre with
  | nil => intro acc; simp [runIterLoop]
  | cons item pre' ih =>
    intro acc
    have hpre' : ∀ i ∈ pre', isErrorResult i = false :=
      fun i hi => h i (List.mem_cons_of_mem _ hi)
    cases item with
    | system sid => simp [runIterLoop, ih hpre']
    | assistant cs => simp [runIterLoop, ih hpre']
    | result d' n' isError errMsg =>
      cases isError with
      | true => exact absurd (h _ (List.mem_cons_self _ _)) (by simp [isErrorResult])
      | false => simp [runIterLoop, ih hpre']
    | streamErr e => simp [runIterLoop, ih hpre']
    | other => simp [runIterLoop, ih hpre']

/-- C7: if the stream delivers a `Completed` event with `isError == true`
(and no earlier error-completion), the driver fails with `Amp error: `
followed by the event's error message — the empty string when that field
is absent — no matter how much agent text was accumulated before the event
and no matter what follows it. -/
theorem c7_error_result_controls (pre rest : List StreamItem)
    (d n : Nat) (em : Option String)
    (h : ∀ item ∈ pre, isErrorResult item = false) :
    run_iteration (pre ++ .result d n true em :: rest) =
      .error ("Amp error: " ++ em.getD "") :=
  runIterLoop_first_error pre rest d n em h ""

/-- Witness for C7: agent text and a transport error precede an
error-completion whose message is absent; the driver fails with the
empty-string fallback message. -/
theorem c7_error_result_controls_witness :
    run_iteration [.assistant [.text "partial"], .streamErr "net",
      .result 5 1 true none] = .error ("Amp error: " ++ Option.getD none "") :=
  c7_error_result_controls [.assistant [.text "partial"], .streamErr "net"]
    [] 5 1 none (by decide)

/-- C8: if the stream ends without ever delivering a `Completed` event —
transport errors included — the driver returns success carrying exactly
the concatenated agent text. -/
theorem c8_no_completed_silent_success (items : List StreamItem)
    (h : ∀ item ∈ items, isResult item = false) :
    run_iteration items = .ok (accumText items) := by
  have := runIterLoop_no_result items h ""
  simpa [run_iteration] using this

/-- Witness for C8: a stream with agent text and two transport errors but
no completion event yields success with the accumulated text. -/
theorem c8_no_completed_silent_success_witness :
    run_iteration [.system "s1", .streamErr "boom",
      .assistant [.text "a", .toolUse "bash", .text "b"], .streamErr "late"] =
      .ok (accumText [.system "s1", .streamErr "boom",
        .assistant [.text "a", .toolUse "bash", .text "b"], .streamErr "late"]) :=
  c8_no_completed_silent_success _ (by decide)

/-! ### Iteration Loop, execute-tasks mode (C3, C9)

`run_command` (src/workflows.rs lines 12-101) is embedded with its file
system and Session Driver as an environment of oracles indexed by call
count: `load_prd k` is the outcome of the (k+1)-th Task Document read,
`driver k prompt` the outcome of the (k+1)-th Session Driver invocation,
and so on.  The `RunSt` record counts those calls and collects the Journal
entries appended so far.  Console output, the progress bar and the spinner
are presentation only and are not modelled.  The loop body is flattened:
each arm returns the updated counters directly, in the order the Rust code
performs the calls (document read; scheduler; journal read; driver; journal
append; on success one extra document re-read for the progress bar; after
the loop `print_final_summary` re-reads the document once more, and the
prompt template is read once before the loop — its content is the
environment's `base_prompt`). -/

structure RunEnv where
  load_prd : Nat → Except String Prd
  load_progress : Nat → Except String String
  driver : Nat → String → Except String String
  append : Nat → Except String Unit
  timestamp : Nat → String
  base_prompt : String

structure RunSt where
  prdReads : Nat
  progressReads : Nat
  driverCalls : Nat
  appends : Nat
  journal : List String
deriving Repr, DecidableEq

/-- `build_iteration_prompt` (src/prompts.rs lines 113-153). -/
def build_iteration_prompt (base_prompt : String) (story : Story)
    (progress : String) : String :=
  base_prompt ++ "\n\n## Current Task\n\n**Story ID:** " ++ story.id ++
    "\n**Title:** " ++ story.title ++
    "\n**Description:** " ++ story.description ++
    "\n\n### Acceptance Criteria\n" ++
    String.intercalate "\n" (story.acceptance_criteria.map (fun c => "- " ++ c)) ++
    "\n\n## Previous Learnings\n" ++
    (if progress = "" then "(none yet)" else progress) ++
    "\n\n## Instructions\n\n1. Implement this story\n2. Run typecheck and tests\n" ++
    "3. If passing, commit with message: \"feat(" ++ story.id ++ "): " ++
    story.title ++ "\"\n4. Mark the story as done by setting `passes: true` " ++
    "in prd.json\n5. Append learnings to progress.txt\n" ++
    "6. If you discover reusable patterns, update AGENTS.md\n"

/-- The Journal entry appended on driver success
(src/workflows.rs lines 75-79). -/
def completedEntry (ts sid : String) : String :=
  "\n## [" ++ ts ++ "] Completed: " ++ sid ++ "\n"

/-- The Journal entry appended on driver failure
(src/workflows.rs lines 88-92). -/
def failedEntry (ts sid e : String) : String :=
  "\n## [" ++ ts ++ "] Failed: " ++ sid ++ "\nError: " ++ e ++ "\n"

/-- One iteration of the `for iteration in 1..=max_iterations` loop body
(src/workflows.rs lines 45-95).  Returns `ok false` for the
`All stories complete` break, `ok true` to continue, `error` when a `?`
propagates. -/
def run_one (env : RunEnv) (st : RunSt) : Except String Bool × RunSt :=
  match env.load_prd st.prdReads with
  | .error e => (.error e,
      ⟨st.prdReads + 1, st.progressReads, st.driverCalls, st.appends, st.journal⟩)
  | .ok prd =>
    match prd.get_next_story with
    | none => (.ok false,
        ⟨st.prdReads + 1, st.progressReads, st.driverCalls, st.appends, st.journal⟩)
    | some story =>
      match env.load_progress st.progressReads with
      | .error e => (.error e,
          ⟨st.prdReads + 1, st.progressReads + 1, st.driverCalls, st.appends,
            st.journal⟩)
      | .ok progress =>
        match env.driver st.driverCalls
            (build_iteration_prompt env.base_prompt story progress) with
        | .ok _out =>
          match env.append st.appends with
          | .error e => (.error e,
              ⟨st.prdReads + 1, st.progressReads + 1, st.driverCalls + 1,
                st.appends + 1, st.journal⟩)
          | .ok _ =>
            match env.load_prd (st.prdReads + 1) with
            | .error e => (.error e,
                ⟨st.prdReads + 2, st.progressReads + 1, st.driverCalls + 1,
                  st.appends + 1, st.journal ++
                    [completedEntry (env.timestamp st.appends) story.id]⟩)
            | .ok _ => (.ok true,
                ⟨st.prdReads + 2, st.progressReads + 1, st.driverCalls + 1,
                  st.appends + 1, st.journal ++
                    [completedEntry (env.timestamp st.appends) story.id]⟩)
        | .error e =>
          match env.append st.appends with
          | .error e2 => (.error e2,
              ⟨st.prdReads + 1, st.progressReads + 1, st.driverCalls + 1,
                st.appends + 1, st.journal⟩)
          | .ok _ => (.ok true,
              ⟨st.prdReads + 1, st.progressReads + 1, st.driverCalls + 1,
                st.appends + 1, st.journal ++
                  [failedEntry (env.timestamp st.appends) story.id e]⟩)

/-- The bounded iteration loop: at most `n` more iterations. -/
def run_loop (env : RunEnv) : Nat → RunSt → Except String Unit × RunSt
  | 0, st => (.ok (), st)
  | n + 1, st =>
    match run_one env st with
    | (.error e, st') => (.error e, st')
    | (.ok false, st') => (.ok (), st')
    | (.ok true, st') => run_loop env n st'

def initSt : RunSt := ⟨0, 0, 0, 0, []⟩

/-- `run_command` (src/workflows.rs lines 12-101): initial document read,
the bounded loop, then the final-summary document read. -/
def run_command (env : RunEnv) (max_iterations : Nat) :
    Except String Unit × RunSt :=
  match env.load_prd 0 with
  | .error e => (.error e, { initSt with prdReads := 1 })
  | .ok _ =>
    match run_loop env max_iterations { initSt with prdReads := 1 } with
    | (.error e, st') => (.error e, st')
    | (.ok _, st') =>
      match env.load_prd st'.prdReads with
      | .error e => (.error e, { st' with prdReads := st'.prdReads + 1 })
      | .ok _ => (.ok (), { st' with prdReads := st'.prdReads + 1 })

/-- The Journal entry the loop appends at its (k+1)-th iteration when every
read succeeds and the same document `D` with selected task `story` is read
back every time. -/
def entryAt (env : RunEnv) (story : Story) (prog : Nat → String) (k : Nat) :
    String :=
  match env.driver k (build_iteration_prompt env.base_prompt story (prog k)) with
  | .ok _ => completedEntry (env.timestamp k) story.id
  | .error e => failedEntry (env.timestamp k) story.id e

lemma scheduler_some_of_pending (D : Prd)
    (h : ∃ s ∈ D.stories, s.passes = false) :
    ∃ t, D.get_next_story = some t := by
  obtain ⟨s, hs, hp⟩ := h
  unfold Prd.get_next_story
  cases hfe : D.stories.filter (fun s => !s.passes) with
  | nil =>
    have := List.filter_eq_nil_iff.mp hfe s hs
    simp [hp] at this
  | cons x xs => exact ⟨minByPriority x xs, rfl⟩

lemma run_one_all_success (env : RunEnv)
    (hprd : ∀ k, ∃ D, env.load_prd k = .ok D ∧ ∃ s ∈ D.stories, s.passes = false)
    (hprog : ∀ k, ∃ s, env.load_progress k = .ok s)
    (hdrv : ∀ k p, ∃ out, env.driver k p = .ok out)
    (happ : ∀ k, env.append k = .ok ()) (st : RunSt) :
    ∃ st', run_one env st = (.ok true, st') ∧
      st'.driverCalls = st.driverCalls + 1 := by
  obtain ⟨D, hD, hpend⟩ := hprd st.prdReads
  obtain ⟨story, hstory⟩ := scheduler_some_of_pending D hpend
  obtain ⟨progress, hpg⟩ := hprog st.progressReads
  obtain ⟨out, hout⟩ :=
    hdrv st.driverCalls (build_iteration_prompt env.base_prompt story progress)
  obtain ⟨D₂, hD₂, _⟩ := hprd (st.prdReads + 1)
  refine ⟨⟨st.prdReads + 2, st.progressReads + 1, st.driverCalls + 1,
    st.appends + 1, st.journal ++
      [completedEntry (env.timestamp st.appends) story.id]⟩, ?_, rfl⟩
  simp only [run_one, hD, hstory, hpg, hout, happ st.appends, hD₂]

lemma run_loop_all_success (env : RunEnv)
    (hprd : ∀ k, ∃ D, env.load_prd k = .ok D ∧ ∃ s ∈ D.stories, s.passes = false)
    (hprog : ∀ k, ∃ s, env.load_progress k = .ok s)
    (hdrv : ∀ k p, ∃ out, env.driver k p = .ok out)
    (happ : ∀ k, env.append k = .ok ()) :
    ∀ (n : Nat) (st : RunSt), (run_loop env n st).1 = .ok () ∧
      (run_loop env n st).2.driverCalls = st.driverCalls + n := by
  intro n
  induction n with
  | zero => intro st; exact ⟨rfl, rfl⟩
  | succ n ih =>
    intro st
    obtain ⟨st', h1, h2⟩ := run_one_all_success env hprd hprog hdrv happ st
    have := ih st'
    simp only [run_loop, h1]
    exact ⟨this.1, by rw [this.2, h2]; omega⟩

/-- C3: with maximum iteration count `N`, if every Task Document read
during the run has at least one not-done task, every Journal read and
append succeeds, and the Session Driver always succeeds, `run_command`
performs exactly `N` Session Driver invocations and returns without
error. -/
theorem c3_exactly_n_iterations (env : RunEnv) (N : Nat)
    (hprd : ∀ k, ∃ D, env.load_prd k = .ok D ∧ ∃ s ∈ D.stories, s.passes = false)
    (hprog : ∀ k, ∃ s, env.load_progress k = .ok s)
    (hdrv : ∀ k p, ∃ out, env.driver k p = .ok out)
    (happ : ∀ k, env.append k = .ok ()) :
    (run_command env N).1 = .ok () ∧
      (run_command env N).2.driverCalls = N := by
  obtain ⟨D0, hD0, _⟩ := hprd 0
  rcases hres : run_loop env N { initSt with prdReads := 1 } with ⟨res, st'⟩
  have hloop := run_loop_all_success env hprd hprog hdrv happ N
    { initSt with prdReads := 1 }
  rw [hres] at hloop
  simp only at hloop
  obtain ⟨D1, hD1, _⟩ := hprd st'.prdReads
  have hcmd : run_command env N =
      (.ok (), ⟨st'.prdReads + 1, st'.progressReads, st'.driverCalls,
        st'.appends, st'.journal⟩) := by
    simp only [run_command, hD0, hres, hloop.1, hD1]
  rw [hcmd]
  refine ⟨rfl, ?_⟩
  have h2 := hloop.2
  simp only [initSt] at h2
  simpa using h2

lemma run_one_fixed (env : RunEnv) (D : Prd) (story : Story)
    (prog : Nat → String)
    (hprd : ∀ k, env.load_prd k = .ok D)
    (hsel : D.get_next_story = some story)
    (hprog : ∀ k, env.load_progress k = .ok (prog k))
    (happ : ∀ k, env.append k = .ok ()) (st : RunSt)
    (hpg : st.progressReads = st.driverCalls)
    (hap : st.appends = st.driverCalls) :
    ∃ st', run_one env st = (.ok true, st') ∧
      st'.driverCalls = st.driverCalls + 1 ∧
      st'.progressReads = st.progressReads + 1 ∧
      st'.appends = st.appends + 1 ∧
      st'.journal = st.journal ++ [entryAt env story prog st.driverCalls] := by
  cases hdrv : env.driver st.driverCalls
      (build_iteration_prompt env.base_prompt story (prog st.driverCalls)) with
  | ok out =>
    refine ⟨⟨st.prdReads + 2, st.progressReads + 1, st.driverCalls + 1,
      st.appends + 1, st.journal ++
        [completedEntry (env.timestamp st.driverCalls) story.id]⟩,
      ?_, rfl, rfl, rfl, ?_⟩
    · simp only [run_one, hprd st.prdReads, hsel, hpg, hap,
        hprog st.driverCalls, hdrv, happ st.driverCalls, hprd (st.prdReads + 1)]
    · simp only [entryAt, hdrv]
  | error e =>
    refine ⟨⟨st.prdReads + 1, st.progressReads + 1, st.driverCalls + 1,
      st.appends + 1, st.journal ++
        [failedEntry (env.timestamp st.driverCalls) story.id e]⟩,
      ?_, rfl, rfl, rfl, ?_⟩
    · simp only [run_one, hprd st.prdReads, hsel, hpg, hap,
        hprog st.driverCalls, hdrv, happ st.driverCalls]
    · simp only [entryAt, hdrv]

lemma run_loop_fixed (env : RunEnv) (D : Prd) (story : Story)
    (prog : Nat → String)
    (hprd : ∀ k, env.load_prd k = .ok D)
    (hsel : D.get_next_story = some story)
    (hprog : ∀ k, env.load_progress k = .ok (prog k))
    (happ : ∀ k, env.append k = .ok ()) :
    ∀ (n : Nat) (st : RunSt), st.progressReads = st.driverCalls →
      st.appends = st.driverCalls →
      (run_loop env n st).1 = .ok () ∧
      (run_loop env n st).2.driverCalls = st.driverCalls + n ∧
      (run_loop env n st).2.journal =
        st.journal ++ (List.range' st.driverCalls n).map (entryAt env story prog) := by
  intro n
  induction n with
  | zero =>
    intro st _ _
    exact ⟨rfl, rfl, by simp [run_loop, List.range']⟩
  | succ n ih =>
    intro st hpg hap
    obtain ⟨st', h1, hdc, hpr, hape, hj⟩ :=
      run_one_fixed env D story prog hprd hsel hprog happ st hpg hap
    have ihst := ih st' (by rw [hpr, hdc, hpg]) (by rw [hape, hdc, hap])
    simp only [run_loop, h1]
    refine ⟨ihst.1, ?_, ?_⟩
    · rw [ihst.2.1, hdc]; omega
    · rw [ihst.2.2, hj, hdc]
      rw [List.range'_succ, List.map_cons, List.append_assoc]
      rfl

/-- C9: in execute-tasks mode, with all document reads returning the same
document `D` (selected task `story`) and all Journal reads and appends
succeeding, the loop appends per iteration exactly one timestamped Journal
entry — a `Failed: <taskId>` entry carrying the failure reason whenever
that iteration's Session Driver invocation fails — never aborts on a
driver failure, runs all `N` iterations, and `run_command` returns without
error whatever the driver outcomes are. -/
theorem c9_failure_recorded_nonfatal (env : RunEnv) (N : Nat) (D : Prd)
    (story : Story) (prog : Nat → String)
    (hprd : ∀ k, env.load_prd k = .ok D)
    (hsel : D.get_next_story = some story)
    (hprog : ∀ k, env.load_progress k = .ok (prog k))
    (happ : ∀ k, env.append k = .ok ()) :
    (run_command env N).1 = .ok () ∧
      (run_command env N).2.driverCalls = N ∧
      (run_command env N).2.journal =
        (List.range N).map (entryAt env story prog) := by
  rcases hres : run_loop env N { initSt with prdReads := 1 } with ⟨res, st'⟩
  have hloop := run_loop_fixed env D story prog hprd hsel hprog happ N
    { initSt with prdReads := 1 } rfl rfl
  rw [hres] at hloop
  simp only at hloop
  have hcmd : run_command env N =
      (.ok (), ⟨st'.prdReads + 1, st'.progressReads, st'.driverCalls,
        st'.appends, st'.journal⟩) := by
    simp only [run_command, hprd 0, hres, hloop.1, hprd st'.prdReads]
  rw [hcmd]
  refine ⟨rfl, ?_, ?_⟩
  · have h2 := hloop.2.1
    simp only [initSt] at h2
    simpa using h2
  · have h3 := hloop.2.2
    simp only [initSt] at h3
    simpa [List.range_eq_range'] using h3

/-- Concrete single-task document for the loop witnesses; its task never
flips to done because the witness environments always read it back
unchanged. -/
def loopStory : Story := ⟨"S1", "t", "d", 1, false, ["c"]⟩

def loopDoc : Prd := ⟨"b", [loopStory]⟩

/-- Witness environment for C3: reads always succeed with `loopDoc`, the
driver always succeeds. -/
def c3envW : RunEnv :=
  ⟨fun _ => .ok loopDoc, fun _ => .ok "", fun _ _ => .ok "done",
    fun _ => .ok (), fun k => "T" ++ toString k, "base"⟩

/-- Witness for C3: three iterations, three driver calls, no error. -/
theorem c3_exactly_n_iterations_witness :
    (run_command c3envW 3).1 = .ok () ∧
      (run_command c3envW 3).2.driverCalls = 3 :=
  c3_exactly_n_iterations c3envW 3
    (fun _ => ⟨loopDoc, rfl, loopStory, List.mem_cons_self _ _, rfl⟩)
    (fun _ => ⟨"", rfl⟩) (fun _ _ => ⟨"done", rfl⟩) (fun _ => rfl)

/-- Witness environment for C9: the first driver invocation fails with
`boom`, the second succeeds. -/
def c9envW : RunEnv :=
  ⟨fun _ => .ok loopDoc, fun _ => .ok "",
    fun k _ => if k = 0 then .error "boom" else .ok "done",
    fun _ => .ok (), fun k => "T" ++ toString k, "base"⟩

/-- Witness for C9: with a failing first invocation the run still performs
both iterations, returns without error, and the Journal holds one entry per
iteration (the first a `Failed` entry carrying the reason). -/
theorem c9_failure_recorded_nonfatal_witness :
    (run_command c9envW 2).1 = .ok () ∧
      (run_command c9envW 2).2.driverCalls = 2 ∧
      (run_command c9envW 2).2.journal =
        (List.range 2).map (entryAt c9envW loopStory (fun _ => "")) :=
  c9_failure_recorded_nonfatal c9envW 2 loopDoc loopStory (fun _ => "")
    (fun _ => rfl) rfl (fun _ => rfl) (fun _ => rfl)
